import Mathlib

set_option maxRecDepth 40000

/-!
# Verification of the code-graph generator

A shallow embedding of `.ai-gov/tools/graph-generator.py` (the
`CodeGraphGenerator` class): the node/edge data model, the MD5-based
identifier assigner, the Python extractor over tree-sitter query
captures, the per-file graph builder loop, and the statistics engine.

Machine integers are modelled as `Nat` with explicit reduction modulo
`2^32` (MD5 word arithmetic); the tree-sitter parser is an external
collaborator, so a parsed file is modelled as its lists of query
captures, each capture carrying the positional data the extractor
actually reads.
-/

namespace GraphGen

/-! ## MD5 (`hashlib.md5` as used by `generate_id`) -/

/-- Reduce modulo 2^32: MD5 works on 32-bit words. -/
def w32 (n : Nat) : Nat := n % 4294967296

/-- Left-rotation of a 32-bit word by `s` bits. -/
def rotl32 (x s : Nat) : Nat :=
  w32 ((x <<< s) + (x >>> (32 - s)))

/-- Bitwise complement of a 32-bit word. -/
def not32 (x : Nat) : Nat := Nat.xor x 4294967295

/-- The MD5 per-round shift amounts. -/
def md5S : List Nat :=
  [7, 12, 17, 22, 7, 12, 17, 22, 7, 12, 17, 22, 7, 12, 17, 22,
   5, 9, 14, 20, 5, 9, 14, 20, 5, 9, 14, 20, 5, 9, 14, 20,
   4, 11, 16, 23, 4, 11, 16, 23, 4, 11, 16, 23, 4, 11, 16, 23,
   6, 10, 15, 21, 6, 10, 15, 21, 6, 10, 15, 21, 6, 10, 15, 21]

/-- The MD5 sine-derived constants `K[i] = floor(2^32 * |sin(i+1)|)`. -/
def md5K : List Nat :=
  [0xd76aa478, 0xe8c7b756, 0x242070db, 0xc1bdceee,
   0xf57c0faf, 0x4787c62a, 0xa8304613, 0xfd469501,
   0x698098d8, 0x8b44f7af, 0xffff5bb1, 0x895cd7be,
   0x6b901122, 0xfd987193, 0xa679438e, 0x49b40821,
   0xf61e2562, 0xc040b340, 0x265e5a51, 0xe9b6c7aa,
   0xd62f105d, 0x02441453, 0xd8a1e681, 0xe7d3fbc8,
   0x21e1cde6, 0xc33707d6, 0xf4d50d87, 0x455a14ed,
   0xa9e3e905, 0xfcefa3f8, 0x676f02d9, 0x8d2a4c8a,
   0xfffa3942, 0x8771f681, 0x6d9d6122, 0xfde5380c,
   0xa4beea44, 0x4bdecfa9, 0xf6bb4b60, 0xbebfbc70,
   0x289b7ec6, 0xeaa127fa, 0xd4ef3085, 0x04881d05,
   0xd9d4d039, 0xe6db99e5, 0x1fa27cf8, 0xc4ac5665,
   0xf4292244, 0x432aff97, 0xab9423a7, 0xfc93a039,
   0x655b59c3, 0x8f0ccc92, 0xffeff47d, 0x85845dd1,
   0x6fa87e4f, 0xfe2ce6e0, 0xa3014314, 0x4e0811a1,
   0xf7537e82, 0xbd3af235, 0x2ad7d2bb, 0xeb86d391]

/-- One of the 64 MD5 round steps: given the step index `i`, the message
words `m` of the current chunk and the running `(a, b, c, d)` state,
produce the next state. -/
def md5Step (m : List Nat) (i : Nat) :
    Nat × Nat × Nat × Nat → Nat × Nat × Nat × Nat :=
  fun (a, b, c, d) =>
    let f :=
      if i < 16 then Nat.lor (Nat.land b c) (Nat.land (not32 b) d)
      else if i < 32 then Nat.lor (Nat.land d b) (Nat.land (not32 d) c)
      else if i < 48 then Nat.xor b (Nat.xor c d)
      else Nat.xor c (Nat.lor b (not32 d))
    let g :=
      if i < 16 then i
      else if i < 32 then (5 * i + 1) % 16
      else if i < 48 then (3 * i + 5) % 16
      else (7 * i) % 16
    let f' := w32 (f + a + md5K.getD i 0 + m.getD g 0)
    (d, w32 (b + rotl32 f' (md5S.getD i 0)), b, c)

/-- Process one 16-word chunk, starting from state `(a0, b0, c0, d0)`:
run the 64 round steps and add the result back into the state. -/
def md5Chunk (st : Nat × Nat × Nat × Nat) (m : List Nat) :
    Nat × Nat × Nat × Nat :=
  let (a0, b0, c0, d0) := st
  let (a, b, c, d) := (List.range 64).foldl (fun s i => md5Step m i s) (a0, b0, c0, d0)
  (w32 (a0 + a), w32 (b0 + b), w32 (c0 + c), w32 (d0 + d))

/-- A `Nat` as `k` little-endian bytes. -/
def leBytes : Nat → Nat → List Nat
  | 0, _ => []
  | k + 1, n => n % 256 :: leBytes k (n / 256)

/-- A list of bytes as a little-endian word. -/
def leWord (bs : List Nat) : Nat := bs.foldr (fun b acc => b + 256 * acc) 0

/-- Split a byte list into consecutive groups of `k` bytes, with an
explicit fuel argument for structural recursion. -/
def groupGo (k : Nat) : Nat → List Nat → List (List Nat)
  | 0, _ => []
  | _ + 1, [] => []
  | fuel + 1, l => l.take k :: groupGo k fuel (l.drop k)

/-- Split a byte list into consecutive groups of `k` bytes (the list's
length is enough fuel for any positive `k`). -/
def group (k : Nat) (l : List Nat) : List (List Nat) :=
  groupGo k l.length l

/-- MD5 padding: append `0x80`, zero-fill to 56 mod 64, then the
original bit length as 8 little-endian bytes. -/
def md5Pad (msg : List Nat) : List Nat :=
  let bitLen := (msg.length * 8) % (2 ^ 64)
  let padded := msg ++ [0x80] ++ List.replicate ((119 - msg.length % 64) % 64) 0
  padded ++ leBytes 8 bitLen

/-- The MD5 digest of a byte string, as its 16 digest bytes. -/
def md5 (msg : List Nat) : List Nat :=
  let chunks := group 64 (md5Pad msg)
  let words := chunks.map (fun c => (group 4 c).map leWord)
  let st := words.foldl md5Chunk (0x67452301, 0xefcdab89, 0x98badcfe, 0x10325476)
  leBytes 4 st.1 ++ leBytes 4 st.2.1 ++ leBytes 4 st.2.2.1 ++ leBytes 4 st.2.2.2

/-- A hex digit character for a value below 16 (lowercase, as Python). -/
def hexDigit (n : Nat) : Char :=
  if n < 10 then Char.ofNat (48 + n) else Char.ofNat (87 + n)

/-- A byte as exactly two hex characters. -/
def byteHex (b : Nat) : List Char := [hexDigit (b / 16 % 16), hexDigit (b % 16)]

/-- The hex characters of a digest, two per byte. -/
def hexChars (digest : List Nat) : List Char := (digest.map byteHex).flatten

/-- The hex digest (`hexdigest()`): the digest bytes in lowercase hex. -/
def hexdigest (digest : List Nat) : String :=
  String.mk (hexChars digest)

/-- UTF-8 encoding of one character (`str.encode()`). -/
def utf8Char (c : Char) : List Nat :=
  let n := c.toNat
  if n < 0x80 then [n]
  else if n < 0x800 then
    [0xC0 + n / 64, 0x80 + n % 64]
  else if n < 0x10000 then
    [0xE0 + n / 4096, 0x80 + n / 64 % 64, 0x80 + n % 64]
  else
    [0xF0 + n / 262144, 0x80 + n / 4096 % 64, 0x80 + n / 64 % 64, 0x80 + n % 64]

/-- UTF-8 encoding of a string (`str.encode()`). -/
def strEncode (s : String) : List Nat := (s.data.map utf8Char).flatten

/-! ## Identifier assigner (`CodeGraphGenerator.generate_id`) -/

/-- The id assigner `generate_id`: join `(type, path, name, line)` with
`":"` into `content`, MD5 it, and keep the first 16 hex characters
(`hashlib.md5(content.encode()).hexdigest()[:16]`; the `[:16]` slice is
taken on the character list underlying the hex digest). -/
def generate_id (ty path name : String) (line : Nat) : String :=
  let content := ty ++ ":" ++ path ++ ":" ++ name ++ ":" ++ toString line
  String.mk ((hexChars (md5 (strEncode content))).take 16)

/-! ## Graph model (`Node`, `Edge`) -/

/-- A metadata value: the language tag or the collected import list
(the two values the generator ever stores). -/
inductive MetaValue
  | str (s : String)
  | strList (l : List String)
deriving DecidableEq, Repr

/-- A node's `metadata` dict: string keys in insertion order. -/
abbrev Metadata := List (String × MetaValue)

/-- The `location` dict: `{"line": _, "column": _}`. -/
structure Location where
  line : Nat
  column : Nat
deriving DecidableEq, Repr

/-- The `Node` dataclass. -/
structure Node where
  id : String
  type : String
  name : String
  path : String
  location : Location
  metadata : Metadata
deriving DecidableEq, Repr

/-- The `Edge` dataclass. -/
structure Edge where
  source : String
  target : String
  type : String
deriving DecidableEq, Repr

/-- The generator's accumulating state: `self.nodes` and `self.edges`. -/
structure GenState where
  nodes : List Node
  edges : List Edge
deriving DecidableEq, Repr

/-! ## Parsed trees (the tree-sitter collaborator)

The parser is an external collaborator; a parsed file is modelled as
the capture lists its three structural queries return, each capture
carrying exactly the fields the extractor reads. -/

/-- The view of a tree-sitter node the extractor reads: its own byte
span (`start_byte`/`end_byte`), its start point (`start_point[0]`,
`start_point[1]`), and the byte span of its `name` field child
(`child_by_field_name("name")`), when that child exists. -/
structure TSNode where
  startByte : Nat
  endByte : Nat
  startRow : Nat
  startCol : Nat
  nameSpan : Option (Nat × Nat)
deriving DecidableEq, Repr

/-- One query capture: the matched node and its capture label. -/
structure Capture where
  node : TSNode
  captureName : String
deriving DecidableEq, Repr

/-- A parsed file as the extractor consumes it: the results of the
class query, the function query and the import query. -/
structure Tree where
  classCaptures : List Capture
  funcCaptures : List Capture
  importCaptures : List Capture
deriving DecidableEq, Repr

/-! ## Byte slices and UTF-8 decoding (`content[a:b].decode('utf8')`) -/

/-- Is `n` a UTF-8 continuation byte? -/
def isCont (n : Nat) : Bool := 0x80 ≤ n && n < 0xC0

/-- UTF-8 decoding of a byte list, `none` on invalid input
(Python raises `UnicodeDecodeError`); rejects overlong encodings,
surrogates and out-of-range code points, as Python does. -/
def utf8Decode : List Nat → Option (List Char)
  | [] => some []
  | b :: bs =>
    if b < 0x80 then
      (utf8Decode bs).map (Char.ofNat b :: ·)
    else if b < 0xC2 then none
    else if b < 0xE0 then
      match bs with
      | b1 :: bs' =>
        if isCont b1 then
          (utf8Decode bs').map (Char.ofNat ((b - 0xC0) * 64 + (b1 - 0x80)) :: ·)
        else none
      | _ => none
    else if b < 0xF0 then
      match bs with
      | b1 :: b2 :: bs' =>
        if isCont b1 && isCont b2 then
          let n := (b - 0xE0) * 4096 + (b1 - 0x80) * 64 + (b2 - 0x80)
          if n < 0x800 || (0xD800 ≤ n && n < 0xE000) then none
          else (utf8Decode bs').map (Char.ofNat n :: ·)
        else none
      | _ => none
    else if b < 0xF5 then
      match bs with
      | b1 :: b2 :: b3 :: bs' =>
        if isCont b1 && isCont b2 && isCont b3 then
          let n := (b - 0xF0) * 262144 + (b1 - 0x80) * 4096 + (b2 - 0x80) * 64 + (b3 - 0x80)
          if n < 0x10000 || 0x110000 ≤ n then none
          else (utf8Decode bs').map (Char.ofNat n :: ·)
        else none
      | _ => none
    else none

/-- Python byte-slice-and-decode `content[a:b].decode('utf8')`:
slice (clamping, with non-negative indices) then UTF-8 decode. -/
def sliceDecode (content : List Nat) (a b : Nat) : Option String :=
  (utf8Decode ((content.take b).drop a)).map String.mk

/-- Python's `sub in s` substring test. -/
def pyInStr (sub s : String) : Bool := decide (sub.data <:+: s.data)

/-! ## Extractor (`CodeGraphGenerator.extract_python_nodes`) -/

/-- Python dict assignment `metadata[k] = v`: overwrite the existing
entry in place, or append a new one. -/
def setKey (m : Metadata) (k : String) (v : MetaValue) : Metadata :=
  if m.any (fun p => p.1 = k) then
    m.map (fun p => if p.1 = k then (k, v) else p)
  else m ++ [(k, v)]

/-- Look a key up in a metadata dict. -/
def getKey (m : Metadata) (k : String) : Option MetaValue :=
  (m.find? (fun p => p.1 = k)).map (·.2)

/-- One declaration-extraction loop of `extract_python_nodes` — the
class loop for `ty = "class"`, `label = "class.def"`, and the function
loop for `ty = "function"`, `label = "func.def"`. Returns the nodes
and edges it appends, in order, plus `false` when a name slice failed
to decode (`UnicodeDecodeError` aborting the loop there, keeping the
appends already made). A capture without a `name` child is skipped. -/
def declLoop (ty label : String) (content : List Nat) (relPath fileId : String) :
    List Capture → List Node × List Edge × Bool
  | [] => ([], [], true)
  | cap :: rest =>
    if cap.captureName = label then
      match cap.node.nameSpan with
      | some (a, b) =>
        match sliceDecode content a b with
        | some nm =>
          let declId := generate_id ty relPath nm cap.node.startRow
          let n : Node :=
            { id := declId, type := ty, name := nm, path := relPath,
              location := ⟨cap.node.startRow + 1, cap.node.startCol⟩, metadata := [] }
          let e : Edge := ⟨fileId, declId, "contains"⟩
          let (ns, es, ok) := declLoop ty label content relPath fileId rest
          (n :: ns, e :: es, ok)
        | none => ([], [], false)
      | none => declLoop ty label content relPath fileId rest
    else declLoop ty label content relPath fileId rest

/-- The import loop: collect the raw matched text of every capture
whose label contains `"import.name"`, in order; `none` when a slice
fails to decode (the exception discards the whole collection). -/
def importsLoop (content : List Nat) : List Capture → Option (List String)
  | [] => some []
  | cap :: rest =>
    if pyInStr "import.name" cap.captureName then
      match sliceDecode content cap.node.startByte cap.node.endByte with
      | some s => (importsLoop content rest).map (s :: ·)
      | none => none
    else importsLoop content rest

/-- Set `node.metadata['imports'] = imports` on the first node of the
list whose id matches (the `for node in self.nodes: ... break` scan). -/
def attachImports (fileId : String) (imports : List String) : List Node → List Node
  | [] => []
  | n :: ns =>
    if n.id = fileId then
      { n with metadata := setKey n.metadata "imports" (.strList imports) } :: ns
    else n :: attachImports fileId imports ns

/-- The extractor `extract_python_nodes`: append the file node, run the class loop,
the function loop and the import loop, then attach a non-empty import
list to the first node carrying the file id. The flag is `false` when
a decode raised mid-extraction; the state then holds exactly the
appends made before the failure (the caller catches the exception). -/
def extract_python_nodes (language : String) (tree : Tree) (fileName relPath : String)
    (content : List Nat) (s : GenState) : GenState × Bool :=
  let fileId := generate_id "file" relPath fileName 0
  let fileNode : Node :=
    { id := fileId, type := "file", name := fileName, path := relPath,
      location := ⟨0, 0⟩, metadata := [("language", .str language)] }
  let s1 : GenState := ⟨s.nodes ++ [fileNode], s.edges⟩
  let (cns, ces, okc) := declLoop "class" "class.def" content relPath fileId tree.classCaptures
  let s2 : GenState := ⟨s1.nodes ++ cns, s1.edges ++ ces⟩
  if !okc then (s2, false) else
  let (fns, fes, okf) := declLoop "function" "func.def" content relPath fileId tree.funcCaptures
  let s3 : GenState := ⟨s2.nodes ++ fns, s2.edges ++ fes⟩
  if !okf then (s3, false) else
  match importsLoop content tree.importCaptures with
  | none => (s3, false)
  | some imports =>
    if imports ≠ [] then (⟨attachImports fileId imports s3.nodes, s3.edges⟩, true)
    else (s3, true)

/-! ## Graph builder (`CodeGraphGenerator.generate`) -/

/-- One discovered file as the builder's loop sees it: its base name
(`file_path.name`), its root-relative path, and either the raw bytes
with their parsed tree, or the error raised while reading or parsing
(`file_path.read_bytes()` / `self.parser.parse(content)`). -/
structure FileEntry where
  fileName : String
  relPath : String
  parsed : Except String (List Nat × Tree)

/-- The body of `generate`'s per-file loop: on a read or parse error
the state is left unchanged (the `except` logs and continues); on
success the Python extractor runs when the language is `"python"`
(other languages have no handler), and a mid-extraction decode error
is likewise caught, keeping the partial appends. -/
def processFile (language : String) (s : GenState) (f : FileEntry) : GenState :=
  match f.parsed with
  | .error _ => s
  | .ok (content, tree) =>
    if language = "python" then
      (extract_python_nodes language tree f.fileName f.relPath content s).1
    else s

/-- The graph's `metadata` record (`generated` is the collaborator
`datetime.now().isoformat()`, passed in). -/
structure GraphMeta where
  generated : String
  language : String
  root_path : String
  files_processed : Nat
  node_count : Nat
  edge_count : Nat
deriving DecidableEq, Repr

/-- The graph document `generate` returns. -/
structure Graph where
  nodes : List Node
  edges : List Edge
  metadata : GraphMeta
deriving DecidableEq, Repr

/-- The builder `CodeGraphGenerator.generate`: fold the per-file processing over
the discovered files (starting from the constructor's empty state) and
assemble the graph document. -/
def generate (language root_path generated : String) (files : List FileEntry) : Graph :=
  let s := files.foldl (processFile language) ⟨[], []⟩
  { nodes := s.nodes, edges := s.edges,
    metadata :=
      { generated := generated, language := language, root_path := root_path,
        files_processed := files.length, node_count := s.nodes.length,
        edge_count := s.edges.length } }

/-! ## Statistics engine (`CodeGraphGenerator.get_statistics`) -/

/-- Python `d[k] = d.get(k, 0) + 1` on an insertion-ordered counter
dict. -/
def bump (d : List (String × Nat)) (k : String) : List (String × Nat) :=
  if d.any (fun p => p.1 = k) then
    d.map (fun p => if p.1 = k then (p.1, p.2 + 1) else p)
  else d ++ [(k, 1)]

/-- The `node_types` histogram. -/
def nodeTypes (nodes : List Node) : List (String × Nat) :=
  nodes.foldl (fun d n => bump d n.type) []

/-- The `edge_types` histogram. -/
def edgeTypes (edges : List Edge) : List (String × Nat) :=
  edges.foldl (fun d e => bump d e.type) []

/-- The connectivity mapping: one bump for the source and one for the
target of every edge; keys appear in first-appearance order (Python
dict insertion order). -/
def connectivity (edges : List Edge) : List (String × Nat) :=
  edges.foldl (fun d e => bump (bump d e.source) e.target) []

/-- The sort step
`sorted(connectivity.items(), key=lambda x: x[1], reverse=True)`:
a stable sort moving larger counts first. Python timsort is stable,
and a stable sort output is determined by the key and the input
order, so insertion sort computes the same list Python does. -/
def sortByCountDesc (l : List (String × Nat)) : List (String × Nat) :=
  l.insertionSort (fun a b => b.2 ≤ a.2)

/-- One resolved entry of `top_connected`. -/
structure TopEntry where
  name : String
  type : String
  path : String
  connections : Nat
deriving DecidableEq, Repr

/-- The report `get_statistics` returns. -/
structure Stats where
  node_types : List (String × Nat)
  edge_types : List (String × Nat)
  top_connected : List TopEntry
deriving DecidableEq, Repr

/-- The node lookup
`next((n for n in self.nodes if n.id == node_id), None)`. -/
def findNode (nodes : List Node) (nid : String) : Option Node :=
  nodes.find? (fun n => n.id = nid)

/-- The statistics engine `get_statistics`, threading the generator state it reads: the
histograms, the connectivity mapping, the top five connectivity
entries, each kept only when its id resolves to a node. The method
only reads `self`, so the state comes back with the report. -/
def get_statistics (s : GenState) : Stats × GenState :=
  let node_types := nodeTypes s.nodes
  let edge_types := edgeTypes s.edges
  let conn := connectivity s.edges
  let top_nodes := (sortByCountDesc conn).take 5
  let top_connected := top_nodes.filterMap (fun p =>
    (findNode s.nodes p.1).map (fun n =>
      ({ name := n.name, type := n.type, path := n.path, connections := p.2 } : TopEntry)))
  (⟨node_types, edge_types, top_connected⟩, s)

/-! ## Supporting lemmas -/

theorem leBytes_length (k : Nat) : ∀ n, (leBytes k n).length = k := by
  induction k with
  | zero => intro n; rfl
  | succ k ih => intro n; simp [leBytes, ih]

theorem md5_length (msg : List Nat) : (md5 msg).length = 16 := by
  simp [md5, leBytes_length]

theorem hexChars_length (d : List Nat) : (hexChars d).length = 2 * d.length := by
  induction d with
  | nil => rfl
  | cons b bs ih =>
      simp only [hexChars, List.map_cons, List.flatten_cons, List.length_append,
        List.length_cons] at ih ⊢
      simp [byteHex, ih]
      omega

theorem generate_id_length (ty path name : String) (line : Nat) :
    (generate_id ty path name line).length = 16 := by
  have h := hexChars_length
    (md5 (strEncode (ty ++ ":" ++ path ++ ":" ++ name ++ ":" ++ toString line)))
  rw [md5_length] at h
  simp [generate_id, String.length, h]

/-! ## The claims -/

/-- C1: the identifier assigner is a pure deterministic function of the
`(kind, path, name, start_line)` tuple — identical tuples give the same
id, the id is computed by joining the four inputs with the fixed `":"`
separator and truncating the 128-bit MD5 digest to a fixed-length
16-character hex string, and (witnessing the collision-resistance on a
concrete example) changing any single one of the four inputs changes
the id. -/
theorem generate_id_deterministic_digest :
    (∀ ty path name line ty' path' name' line', ty = ty' → path = path' →
        name = name' → line = line' →
        generate_id ty path name line = generate_id ty' path' name' line') ∧
    (∀ ty path name line, generate_id ty path name line =
        String.mk ((hexChars (md5 (strEncode
          (ty ++ ":" ++ path ++ ":" ++ name ++ ":" ++ toString line)))).take 16)) ∧
    (∀ ty path name line, (generate_id ty path name line).length = 16) ∧
    generate_id "file" "a.py" "f" 3 ≠ generate_id "class" "a.py" "f" 3 ∧
    generate_id "file" "a.py" "f" 3 ≠ generate_id "file" "b.py" "f" 3 ∧
    generate_id "file" "a.py" "f" 3 ≠ generate_id "file" "a.py" "g" 3 ∧
    generate_id "file" "a.py" "f" 3 ≠ generate_id "file" "a.py" "f" 4 := by
  refine ⟨?_, ?_, ?_, ?_, ?_, ?_, ?_⟩
  · intro ty path name line ty' path' name' line' h1 h2 h3 h4
    subst h1; subst h2; subst h3; subst h4; rfl
  · intro ty path name line; rfl
  · exact generate_id_length
  all_goals decide

/-- Witness for C1: the determinism clause applied at a concrete
tuple. -/
theorem generate_id_deterministic_digest_witness :
    generate_id "file" "x.py" "g" 7 = generate_id "file" "x.py" "g" 7 :=
  generate_id_deterministic_digest.1 "file" "x.py" "g" 7 "file" "x.py" "g" 7
    rfl rfl rfl rfl

/-- C7: zero discovered files produce a graph with empty `nodes`, empty
`edges` and `files_processed = 0`; and on the state with zero nodes and
zero edges `get_statistics` returns empty `node_types`, empty
`edge_types` and an empty `top_connected` rather than failing. -/
theorem empty_input_totality :
    (∀ language root_path generated,
      (generate language root_path generated []).nodes = [] ∧
      (generate language root_path generated []).edges = [] ∧
      (generate language root_path generated []).metadata.files_processed = 0) ∧
    (get_statistics ⟨[], []⟩).1.node_types = [] ∧
    (get_statistics ⟨[], []⟩).1.edge_types = [] ∧
    (get_statistics ⟨[], []⟩).1.top_connected = [] :=
  ⟨fun _ _ _ => ⟨rfl, rfl, rfl⟩, rfl, rfl, rfl⟩

/-- C9: the statistics engine is read-only — on every generator state
`get_statistics` hands the node list and edge list back exactly
unchanged, its report being a separate derived structure. -/
theorem get_statistics_read_only (s : GenState) :
    (get_statistics s).2 = s := rfl

/-- The worked statistics example of C5: file node `F`, class node `A`,
function node `B`, and the two containment edges. -/
def workedExample : GenState :=
  { nodes :=
      [{ id := "idF", type := "file", name := "F.py", path := "F.py",
         location := ⟨0, 0⟩, metadata := [("language", .str "python")] },
       { id := "idA", type := "class", name := "A", path := "F.py",
         location := ⟨1, 0⟩, metadata := [] },
       { id := "idB", type := "function", name := "B", path := "F.py",
         location := ⟨5, 0⟩, metadata := [] }],
    edges :=
      [⟨"idF", "idA", "contains"⟩, ⟨"idF", "idB", "contains"⟩] }

/-- C5: on the worked example — nodes `F` (file), `A` (class), `B`
(function) with contains edges `F→A` and `F→B` — the statistics are
`node_types = {file:1, class:1, function:1}`,
`edge_types = {contains:2}`, connectivity 2 for `F` and 1 each for `A`
and `B`, and `top_connected` lists `F` first. -/
theorem statistics_worked_example :
    (get_statistics workedExample).1.node_types =
      [("file", 1), ("class", 1), ("function", 1)] ∧
    (get_statistics workedExample).1.edge_types = [("contains", 2)] ∧
    connectivity workedExample.edges = [("idF", 2), ("idA", 1), ("idB", 1)] ∧
    (get_statistics workedExample).1.top_connected =
      [⟨"F.py", "file", "F.py", 2⟩, ⟨"A", "class", "F.py", 1⟩,
       ⟨"B", "function", "F.py", 1⟩] := by
  decide

/-- The graph of C10: a single real node, while the edge list touches
six ids, five of which belong to no node in the node list. -/
def danglingExample : GenState :=
  { nodes :=
      [{ id := "n1", type := "file", name := "n1.py", path := "n1.py",
         location := ⟨0, 0⟩, metadata := [] }],
    edges :=
      [⟨"d1", "d2", "imports"⟩, ⟨"d3", "d4", "imports"⟩,
       ⟨"d5", "n1", "imports"⟩] }

/-- C10: the connectivity mapping counts every id appearing in an edge
even when no node carries that id (here `"d1"`, which `findNode` does
not resolve), while `top_connected` drops unresolvable ids only after
the truncation to five — so this graph has six ids with edges yet
fewer than five `top_connected` entries. -/
theorem dangling_ids_shrink_top_connected :
    ("d1", 1) ∈ connectivity danglingExample.edges ∧
    findNode danglingExample.nodes "d1" = none ∧
    (connectivity danglingExample.edges).length = 6 ∧
    5 ≤ (connectivity danglingExample.edges).length ∧
    (get_statistics danglingExample).1.top_connected.length < 5 := by
  decide

/-- C3: per-file failure isolation — when reading or parsing one file
of a batch raises, the error is caught, the failing file contributes no
nodes or edges, and the generated graph's nodes and edges are exactly
those of the run without the failing file (the remaining files are
still processed, before and after it alike). -/
theorem per_file_failure_isolation
    (language root_path generated : String)
    (before afterFiles : List FileEntry) (f : FileEntry) (e : String)
    (hf : f.parsed = .error e) :
    (generate language root_path generated (before ++ f :: afterFiles)).nodes =
      (generate language root_path generated (before ++ afterFiles)).nodes ∧
    (generate language root_path generated (before ++ f :: afterFiles)).edges =
      (generate language root_path generated (before ++ afterFiles)).edges := by
  have hstep : ∀ s, processFile language s f = s := fun s => by
    simp [processFile, hf]
  constructor <;>
    simp [generate, List.foldl_append, List.foldl_cons, hstep]

/-- Witness for C3: a one-file batch whose only file fails to read
contributes nothing to the graph. -/
theorem per_file_failure_isolation_witness :
    (FileEntry.mk "bad.py" "bad.py" (.error "boom")).parsed = .error "boom" ∧
    ((generate "python" "." "t"
        ([] ++ FileEntry.mk "bad.py" "bad.py" (.error "boom") :: [])).nodes =
      (generate "python" "." "t" ([] ++ [])).nodes ∧
    (generate "python" "." "t"
        ([] ++ FileEntry.mk "bad.py" "bad.py" (.error "boom") :: [])).edges =
      (generate "python" "." "t" ([] ++ [])).edges) :=
  ⟨rfl, per_file_failure_isolation "python" "." "t" [] []
    (FileEntry.mk "bad.py" "bad.py" (.error "boom")) "boom" rfl⟩

/-- Dropping a capture whose matched node has no `name` child leaves a
declaration-extraction loop's output unchanged. -/
theorem declLoop_skip_unnamed (ty label : String) (content : List Nat)
    (relPath fileId : String) (cs1 cs2 : List Capture) (c : Capture)
    (hc : c.node.nameSpan = none) :
    declLoop ty label content relPath fileId (cs1 ++ c :: cs2) =
      declLoop ty label content relPath fileId (cs1 ++ cs2) := by
  induction cs1 with
  | nil =>
      simp only [List.nil_append, declLoop, hc]
      split <;> rfl
  | cons a cs1 ih =>
      simp only [List.cons_append, declLoop, List.append_eq, ih]

/-- C8: a matched class or function declaration whose name cannot be
resolved (no `name` child node) is skipped entirely — the extractor's
result with such a capture anywhere in the class query's or the
function query's capture list equals its result without that capture,
so no node and no edge is emitted for the match, and the skip is not
treated as an error (the success flag is part of the unchanged
result). -/
theorem unnamed_declaration_skipped
    (language fileName relPath : String) (content : List Nat) (s : GenState)
    (cs1 cs2 ics : List Capture) (c : Capture)
    (hc : c.node.nameSpan = none) :
    (∀ fcs, extract_python_nodes language ⟨cs1 ++ c :: cs2, fcs, ics⟩
        fileName relPath content s =
      extract_python_nodes language ⟨cs1 ++ cs2, fcs, ics⟩
        fileName relPath content s) ∧
    ∀ ccs, extract_python_nodes language ⟨ccs, cs1 ++ c :: cs2, ics⟩
        fileName relPath content s =
      extract_python_nodes language ⟨ccs, cs1 ++ cs2, ics⟩
        fileName relPath content s := by
  constructor
  · intro fcs
    simp only [extract_python_nodes,
      declLoop_skip_unnamed "class" "class.def" content relPath
        (generate_id "file" relPath fileName 0) cs1 cs2 c hc]
  · intro ccs
    simp only [extract_python_nodes,
      declLoop_skip_unnamed "function" "func.def" content relPath
        (generate_id "file" relPath fileName 0) cs1 cs2 c hc]

/-- Witness for C8: a nameless class capture is dropped from a
concrete extraction, in both capture-list positions. -/
theorem unnamed_declaration_skipped_witness :
    (Capture.mk ⟨0, 0, 4, 0, none⟩ "class.def").node.nameSpan = none ∧
    ((∀ fcs, extract_python_nodes "python"
        ⟨[] ++ Capture.mk ⟨0, 0, 4, 0, none⟩ "class.def" :: [], fcs, []⟩
        "a.py" "a.py" [] ⟨[], []⟩ =
      extract_python_nodes "python" ⟨[] ++ [], fcs, []⟩ "a.py" "a.py" [] ⟨[], []⟩) ∧
    ∀ ccs, extract_python_nodes "python"
        ⟨ccs, [] ++ Capture.mk ⟨0, 0, 4, 0, none⟩ "class.def" :: [], []⟩
        "a.py" "a.py" [] ⟨[], []⟩ =
      extract_python_nodes "python" ⟨ccs, [] ++ [], []⟩ "a.py" "a.py" [] ⟨[], []⟩) :=
  ⟨rfl, unnamed_declaration_skipped "python" "a.py" "a.py" [] ⟨[], []⟩
    [] [] [] (Capture.mk ⟨0, 0, 4, 0, none⟩ "class.def") rfl⟩

/-- A successful import loop collects exactly the in-order raw texts
of the captures whose label contains `"import.name"`. -/
theorem importsLoop_collects (content : List Nat) :
    ∀ (caps : List Capture) (imps : List String),
      importsLoop content caps = some imps →
      imps = caps.filterMap (fun cap =>
        if pyInStr "import.name" cap.captureName then
          sliceDecode content cap.node.startByte cap.node.endByte
        else none) := by
  intro caps
  induction caps with
  | nil =>
      intro imps h
      simp only [importsLoop, Option.some_inj] at h
      simp [← h]
  | cons cap rest ih =>
      intro imps h
      by_cases hin : pyInStr "import.name" cap.captureName
      · simp only [importsLoop, hin, if_true] at h
        cases hs : sliceDecode content cap.node.startByte cap.node.endByte with
        | none => rw [hs] at h; simp at h
        | some str =>
            rw [hs] at h
            cases hr : importsLoop content rest with
            | none => rw [hr] at h; simp at h
            | some l =>
                rw [hr] at h
                have h2 : str :: l = imps := by simpa using h
                rw [← h2]
                simp only [List.filterMap_cons, hin, if_true, hs]
                exact congrArg _ (ih l hr)
      · simp only [importsLoop, hin, if_false] at h
        simp [List.filterMap_cons, hin, ih imps h]

/-- Attaching imports updates exactly the first node carrying the file
id, when no node before it does. -/
theorem attachImports_first_match (fid : String) (imps : List String) :
    ∀ (l1 : List Node) (n : Node) (l2 : List Node),
      (∀ m ∈ l1, m.id ≠ fid) → n.id = fid →
      attachImports fid imps (l1 ++ n :: l2) =
        l1 ++ { n with metadata := setKey n.metadata "imports" (.strList imps) } :: l2 := by
  intro l1
  induction l1 with
  | nil => intro n l2 _ hn; simp [attachImports, hn]
  | cons m l1 ih =>
      intro n l2 hpre hn
      have hm : ¬ (m.id = fid) := hpre m (List.mem_cons_self _ _)
      simp only [List.cons_append, attachImports, List.append_eq, if_neg hm]
      rw [ih n l2 (fun x hx => hpre x (List.mem_cons_of_mem _ hx)) hn]

/-- The element sitting right after a prefix, by position. -/
theorem getElem_mid (l1 : List Node) (n : Node) (l2 : List Node) :
    (l1 ++ n :: l2)[l1.length]? = some n := by
  rw [List.getElem?_append_right (le_refl _)]
  simp

/-- C6: import collection — the collected `imports` list is the raw
matched text of every import-query capture, in order of appearance;
the file node emitted for the file carries metadata key `"imports"`
holding exactly that list iff it is non-empty, and an empty collection
leaves the file node without an `"imports"` key. (Hypotheses: no node
appended earlier carries this file's id, and the extraction completed
without a decode error.) -/
theorem imports_metadata
    (language fileName relPath : String) (content : List Nat) (s : GenState)
    (tree : Tree) (imports : List String)
    (hprior : ∀ n ∈ s.nodes, n.id ≠ generate_id "file" relPath fileName 0)
    (himp : importsLoop content tree.importCaptures = some imports)
    (hok : (extract_python_nodes language tree fileName relPath content s).2 = true) :
    imports = tree.importCaptures.filterMap (fun cap =>
      if pyInStr "import.name" cap.captureName then
        sliceDecode content cap.node.startByte cap.node.endByte
      else none) ∧
    ∃ fileNode,
      (extract_python_nodes language tree fileName relPath content s).1.nodes[s.nodes.length]? =
        some fileNode ∧
      fileNode.id = generate_id "file" relPath fileName 0 ∧
      fileNode.type = "file" ∧
      (imports ≠ [] → getKey fileNode.metadata "imports" = some (.strList imports)) ∧
      (imports = [] → getKey fileNode.metadata "imports" = none) := by
  refine ⟨importsLoop_collects content tree.importCaptures imports himp, ?_⟩
  rcases hcl : declLoop "class" "class.def" content relPath
      (generate_id "file" relPath fileName 0) tree.classCaptures with ⟨cns, ces, okc⟩
  rcases hfl : declLoop "function" "func.def" content relPath
      (generate_id "file" relPath fileName 0) tree.funcCaptures with ⟨fns, fes, okf⟩
  have hshape : ∀ fileNode : Node,
      ((s.nodes ++ [fileNode]) ++ cns) ++ fns = s.nodes ++ fileNode :: (cns ++ fns) := by
    simp
  cases okc with
  | false =>
      exfalso
      simp only [extract_python_nodes, hcl] at hok
      simp at hok
  | true =>
      cases okf with
      | false =>
          exfalso
          simp only [extract_python_nodes, hcl, hfl] at hok
          simp at hok
      | true =>
          by_cases him : imports = []
          · refine ⟨⟨generate_id "file" relPath fileName 0, "file", fileName, relPath,
              ⟨0, 0⟩, [("language", .str language)]⟩, ?_, rfl, rfl, ?_, ?_⟩
            · simp only [extract_python_nodes, hcl, hfl, himp, him]
              simp only [ne_eq, not_true_eq_false, if_false, hshape]
              exact getElem_mid s.nodes _ _
            · intro h; exact absurd him h
            · intro _; rfl
          · refine ⟨⟨generate_id "file" relPath fileName 0, "file", fileName, relPath,
              ⟨0, 0⟩, setKey [("language", .str language)] "imports" (.strList imports)⟩,
              ?_, rfl, rfl, ?_, ?_⟩
            · simp only [extract_python_nodes, hcl, hfl, himp]
              simp only [ne_eq, him, not_false_eq_true, if_true, hshape]
              rw [attachImports_first_match (generate_id "file" relPath fileName 0) imports
                s.nodes _ (cns ++ fns) hprior rfl]
              exact getElem_mid s.nodes _ _
            · intro _
              simp [setKey, getKey]
            · intro h; exact absurd h him

/-- Witness for C6: a single import capture over the bytes of
`"import os"` collects `["os"]` and attaches it to the file node. -/
theorem imports_metadata_witness :
    (∀ n ∈ (GenState.mk [] []).nodes, n.id ≠ generate_id "file" "a.py" "a.py" 0) ∧
    importsLoop [105, 109, 112, 111, 114, 116, 32, 111, 115]
      (Tree.mk [] [] [⟨⟨7, 9, 0, 7, none⟩, "import.name"⟩]).importCaptures =
        some ["os"] ∧
    (extract_python_nodes "python" (Tree.mk [] [] [⟨⟨7, 9, 0, 7, none⟩, "import.name"⟩])
      "a.py" "a.py" [105, 109, 112, 111, 114, 116, 32, 111, 115] ⟨[], []⟩).2 = true ∧
    (["os"] = (Tree.mk [] [] [⟨⟨7, 9, 0, 7, none⟩, "import.name"⟩]).importCaptures.filterMap
      (fun cap =>
        if pyInStr "import.name" cap.captureName then
          sliceDecode [105, 109, 112, 111, 114, 116, 32, 111, 115]
            cap.node.startByte cap.node.endByte
        else none) ∧
    ∃ fileNode,
      (extract_python_nodes "python" (Tree.mk [] [] [⟨⟨7, 9, 0, 7, none⟩, "import.name"⟩])
        "a.py" "a.py" [105, 109, 112, 111, 114, 116, 32, 111, 115]
        ⟨[], []⟩).1.nodes[(GenState.mk [] []).nodes.length]? = some fileNode ∧
      fileNode.id = generate_id "file" "a.py" "a.py" 0 ∧
      fileNode.type = "file" ∧
      ((["os"] : List String) ≠ [] →
        getKey fileNode.metadata "imports" = some (.strList ["os"])) ∧
      ((["os"] : List String) = [] → getKey fileNode.metadata "imports" = none)) :=
  ⟨fun n hn => absurd hn (List.not_mem_nil n), rfl, rfl,
    imports_metadata "python" "a.py" "a.py" [105, 109, 112, 111, 114, 116, 32, 111, 115]
      ⟨[], []⟩ (Tree.mk [] [] [⟨⟨7, 9, 0, 7, none⟩, "import.name"⟩]) ["os"]
      (fun n hn => absurd hn (List.not_mem_nil n)) rfl rfl⟩

/-- The edges a declaration loop appends are exactly one `contains`
edge per node it appends, from the file id to that node's id, in
order; and every node it appends carries the loop's kind. -/
theorem declLoop_edges_nodes (ty label : String) (content : List Nat)
    (relPath fileId : String) :
    ∀ caps : List Capture,
      (declLoop ty label content relPath fileId caps).2.1 =
        ((declLoop ty label content relPath fileId caps).1).map
          (fun n => (⟨fileId, n.id, "contains"⟩ : Edge)) ∧
      (((declLoop ty label content relPath fileId caps).1).map Node.type).all
        (fun t => t == ty) = true := by
  intro caps
  induction caps with
  | nil => exact ⟨rfl, rfl⟩
  | cons cap rest ih =>
      by_cases hl : cap.captureName = label
      · cases hns : cap.node.nameSpan with
        | none => simpa [declLoop, hl, hns] using ih
        | some ab =>
            obtain ⟨a, b⟩ := ab
            cases hs : sliceDecode content a b with
            | none => simp [declLoop, hl, hns, hs]
            | some nm =>
                rcases hrest : declLoop ty label content relPath fileId rest
                  with ⟨ns, es, ok⟩
                rw [hrest] at ih
                simp only [declLoop, hl, if_pos, hns, hs, hrest] at ih ⊢
                exact ⟨by simp [ih.1], by simp [ih.2]⟩
      · simpa [declLoop, hl] using ih

/-- Attaching imports changes no field a metadata-blind projection
reads. -/
theorem attachImports_map {α : Type} (fid : String) (imps : List String) (f : Node → α)
    (hf : ∀ (n : Node) (m : Metadata),
      f ⟨n.id, n.type, n.name, n.path, n.location, m⟩ = f n) :
    ∀ l : List Node, (attachImports fid imps l).map f = l.map f := by
  intro l
  induction l with
  | nil => rfl
  | cons n ns ih =>
      by_cases hn : n.id = fid
      · simp only [attachImports, if_pos hn, List.map_cons, ih]
        rw [hf]
      · simp only [attachImports, if_neg hn, List.map_cons, ih]

/-- Dropping then projecting commutes with the metadata attachment. -/
theorem drop_map_attach {α : Type} (fid : String) (imps : List String) (f : Node → α)
    (hf : ∀ (n : Node) (m : Metadata),
      f ⟨n.id, n.type, n.name, n.path, n.location, m⟩ = f n)
    (l : List Node) (k : Nat) :
    ((attachImports fid imps l).drop k).map f = (l.drop k).map f := by
  rw [List.map_drop, List.map_drop, attachImports_map fid imps f hf l]

/-- Dropping a prefix and the element after it. -/
theorem drop_past_front {α : Type} (l1 : List α) (x : α) (l2 : List α) :
    (l1 ++ x :: l2).drop (l1.length + 1) = l2 := by
  have h : l1 ++ x :: l2 = (l1 ++ [x]) ++ l2 := by simp
  have h2 : l1.length + 1 = (l1 ++ [x]).length := by simp
  rw [h, h2, List.drop_left]

/-- C2: containment completeness — extracting one file appends, after
the file node, only class and function declaration nodes, and appends
exactly one `contains` edge per appended declaration node, from the
file node's id to that node's id, in one-to-one correspondence and
with no other edges (the pre-existing edges are untouched). -/
theorem containment_completeness
    (language fileName relPath : String) (content : List Nat) (s : GenState)
    (tree : Tree) :
    ((extract_python_nodes language tree fileName relPath content s).1.edges.take
        s.edges.length = s.edges) ∧
    ((extract_python_nodes language tree fileName relPath content s).1.edges.drop
        s.edges.length =
      ((extract_python_nodes language tree fileName relPath content s).1.nodes.drop
        (s.nodes.length + 1)).map
        (fun n => (⟨generate_id "file" relPath fileName 0, n.id, "contains"⟩ : Edge))) ∧
    ((((extract_python_nodes language tree fileName relPath content s).1.nodes.drop
        (s.nodes.length + 1)).map Node.type).all
      (fun t => t == "class" || t == "function") = true) := by
  rcases hcl : declLoop "class" "class.def" content relPath
      (generate_id "file" relPath fileName 0) tree.classCaptures with ⟨cns, ces, okc⟩
  rcases hfl : declLoop "function" "func.def" content relPath
      (generate_id "file" relPath fileName 0) tree.funcCaptures with ⟨fns, fes, okf⟩
  have hc := declLoop_edges_nodes "class" "class.def" content relPath
      (generate_id "file" relPath fileName 0) tree.classCaptures
  have hf := declLoop_edges_nodes "function" "func.def" content relPath
      (generate_id "file" relPath fileName 0) tree.funcCaptures
  rw [hcl] at hc
  rw [hfl] at hf
  have hc1 : ces = cns.map
      (fun n => (⟨generate_id "file" relPath fileName 0, n.id, "contains"⟩ : Edge)) := hc.1
  have hf1 : fes = fns.map
      (fun n => (⟨generate_id "file" relPath fileName 0, n.id, "contains"⟩ : Edge)) := hf.1
  have hctypes : ((cns.map Node.type).all (fun t => t == "class" || t == "function")) = true := by
    have hc2 : ((cns.map Node.type).all (fun t => t == "class")) = true := hc.2
    simp only [List.all_eq_true] at hc2 ⊢
    intro t ht
    simp [hc2 t ht]
  have hftypes : ((fns.map Node.type).all (fun t => t == "class" || t == "function")) = true := by
    have hf2 : ((fns.map Node.type).all (fun t => t == "function")) = true := hf.2
    simp only [List.all_eq_true] at hf2 ⊢
    intro t ht
    simp [hf2 t ht]
  cases okc with
  | false =>
      simp only [extract_python_nodes, hcl, Bool.not_false, Bool.not_true,
        Bool.false_eq_true, if_true, if_false,
        List.append_assoc, List.singleton_append, List.cons_append, List.nil_append]
      refine ⟨List.take_left _ _, ?_, ?_⟩
      · rw [List.drop_left, drop_past_front, hc1]
      · rw [drop_past_front, hctypes]
  | true =>
      cases okf with
      | false =>
          simp only [extract_python_nodes, hcl, hfl, Bool.not_false, Bool.not_true,
            Bool.false_eq_true, if_true, if_false,
            List.append_assoc, List.singleton_append, List.cons_append, List.nil_append]
          refine ⟨List.take_left _ _, ?_, ?_⟩
          · rw [List.drop_left, drop_past_front]
            simp [hc1, hf1]
          · rw [drop_past_front]
            simp [List.all_append, hctypes, hftypes]
      | true =>
          rcases himps : importsLoop content tree.importCaptures with _ | imports
          · simp only [extract_python_nodes, hcl, hfl, himps, Bool.not_true,
              Bool.false_eq_true, if_true, if_false,
              List.append_assoc, List.singleton_append, List.cons_append, List.nil_append]
            refine ⟨List.take_left _ _, ?_, ?_⟩
            · rw [List.drop_left, drop_past_front]
              simp [hc1, hf1]
            · rw [drop_past_front]
              simp [List.all_append, hctypes, hftypes]
          · by_cases him : imports = []
            · simp only [extract_python_nodes, hcl, hfl, himps, him, Bool.not_true,
                ne_eq, not_true_eq_false, Bool.false_eq_true, if_true, if_false,
                List.append_assoc, List.singleton_append, List.cons_append, List.nil_append]
              refine ⟨List.take_left _ _, ?_, ?_⟩
              · rw [List.drop_left, drop_past_front]
                simp [hc1, hf1]
              · rw [drop_past_front]
                simp [List.all_append, hctypes, hftypes]
            · simp only [extract_python_nodes, hcl, hfl, himps, him, Bool.not_true,
                ne_eq, not_false_eq_true, Bool.false_eq_true, if_true, if_false,
                List.append_assoc, List.singleton_append, List.cons_append, List.nil_append]
              have hattach1 := drop_map_attach (generate_id "file" relPath fileName 0)
                imports
                (fun n => (⟨generate_id "file" relPath fileName 0, n.id, "contains"⟩ : Edge))
                (fun n m => rfl)
              have hattach2 := drop_map_attach (generate_id "file" relPath fileName 0)
                imports Node.type (fun n m => rfl)
              refine ⟨List.take_left _ _, ?_, ?_⟩
              · rw [List.drop_left, hattach1, drop_past_front]
                simp [hc1, hf1]
              · rw [hattach2, drop_past_front]
                simp [List.all_append, hctypes, hftypes]

/-- The sort step returns a permutation of its input. -/
theorem sortByCountDesc_perm (l : List (String × Nat)) :
    (sortByCountDesc l).Perm l :=
  List.perm_insertionSort _ l

/-- The sort step sorts by count, descending. -/
theorem sortByCountDesc_sorted (l : List (String × Nat)) :
    (sortByCountDesc l).Sorted (fun a b => b.2 ≤ a.2) := by
  haveI : IsTotal (String × Nat) (fun a b => b.2 ≤ a.2) :=
    ⟨fun a b => le_total b.2 a.2⟩
  haveI : IsTrans (String × Nat) (fun a b => b.2 ≤ a.2) :=
    ⟨fun _ _ _ hab hbc => le_trans hbc hab⟩
  exact List.sorted_insertionSort _ l

/-- Inserting into the descending order keeps the entries of any one
count in their relative order. -/
theorem filter_orderedInsert (c : Nat) (x : String × Nat) (l : List (String × Nat)) :
    (List.orderedInsert (fun a b => b.2 ≤ a.2) x l).filter (fun p => p.2 == c) =
      ((x :: l).filter (fun p => p.2 == c)) := by
  induction l with
  | nil => rfl
  | cons y ys ih =>
      by_cases hxy : y.2 ≤ x.2
      · simp [List.orderedInsert, hxy]
      · simp only [List.orderedInsert, if_neg hxy]
        by_cases hy : (y.2 == c) = true
        · have hxc : ¬ ((x.2 == c) = true) := by
            intro hx
            apply hxy
            have hx2 : x.2 = c := by simpa using hx
            have hy2 : y.2 = c := by simpa using hy
            simp [hx2, hy2]
          simp [List.filter_cons, hy, hxc, ih]
        · simp [List.filter_cons, hy, ih]

/-- Stability of the sort step: for any count value, the entries
carrying that count appear in exactly their original order. -/
theorem filter_sortByCountDesc (c : Nat) (l : List (String × Nat)) :
    (sortByCountDesc l).filter (fun p => p.2 == c) =
      l.filter (fun p => p.2 == c) := by
  induction l with
  | nil => rfl
  | cons x xs ih =>
      rw [show sortByCountDesc (x :: xs) =
        List.orderedInsert (fun a b => b.2 ≤ a.2) x (sortByCountDesc xs) from rfl,
        filter_orderedInsert]
      simp only [List.filter_cons, ih]

/-- C4: for every state, `top_connected` is the connectivity mapping
sorted by connection count descending with a stable sort — the sorted
list is a permutation of the mapping, descending in count, and keeps
the mapping's original order among equal counts — truncated to at most
five entries, each resolved back to its node's name, kind (`type`) and
path. -/
theorem top_connected_spec (s : GenState) :
    (get_statistics s).1.top_connected =
      ((sortByCountDesc (connectivity s.edges)).take 5).filterMap (fun p =>
        (findNode s.nodes p.1).map (fun n =>
          ({ name := n.name, type := n.type, path := n.path,
             connections := p.2 } : TopEntry))) ∧
    (sortByCountDesc (connectivity s.edges)).Perm (connectivity s.edges) ∧
    (sortByCountDesc (connectivity s.edges)).Sorted (fun a b => b.2 ≤ a.2) ∧
    (∀ c : Nat, (sortByCountDesc (connectivity s.edges)).filter (fun p => p.2 == c) =
      (connectivity s.edges).filter (fun p => p.2 == c)) ∧
    (get_statistics s).1.top_connected.length ≤ 5 := by
  refine ⟨rfl, sortByCountDesc_perm _, sortByCountDesc_sorted _,
    fun c => filter_sortByCountDesc c _, ?_⟩
  calc (get_statistics s).1.top_connected.length
      ≤ ((sortByCountDesc (connectivity s.edges)).take 5).length :=
        List.length_filterMap_le _ _
    _ ≤ 5 := List.length_take_le _ _

end GraphGen
